import Mathlib

/-!
# Verification of the PyMirBot connection, dispatch and state-projection layers

Shallow embedding of `Tools/PyMirBot/mirbot` (codec.py, connection.py,
client.py, state.py).  Byte streams are modelled as `List Nat` (each element a
byte value), Python `int` as `Int` (or `Nat` where the source value is always
non-negative, e.g. the unsigned wire reads), Python dicts keyed by ints as
total functions into `Option`/`List`, and asyncio futures as identifiers into
an explicit future store.  Callbacks are modelled by opaque identifiers: the
dispatch logic never inspects a callback, it only decides which ones run.
-/

namespace Mirbot

/-! ## Codec: .NET 7-bit variable-length integers (`mirbot/codec.py`) -/

/-- `BinaryWriter._encode_7bit_int`: while `value >= 0x80` emit
`(value & 0x7F) | 0x80` and shift right by 7; finally emit `value & 0x7F`. -/
def encode_7bit_int (value : Nat) : List Nat :=
  if h : 128 ≤ value then
    ((value &&& 127) ||| 128) :: encode_7bit_int (value >>> 7)
  else
    [value &&& 127]
termination_by value
decreasing_by
  rw [Nat.shiftRight_eq_div_pow]
  exact Nat.div_lt_self (by omega) (by norm_num)

/-- Loop of `BinaryReader._read_7bit_int`: accumulate `result |= (b & 0x7F) << shift`
until a byte with the continuation bit clear; the stream is a byte list and the
remaining bytes are returned alongside the value.  `none` models the
`struct.error` raised by `read_byte` at end of stream. -/
def read_7bit_int_aux : List Nat → Nat → Nat → Option (Nat × List Nat)
  | [], _, _ => none
  | b :: rest, shift, result =>
    let result' := result ||| ((b &&& 127) <<< shift)
    if b &&& 128 = 0 then some (result', rest)
    else read_7bit_int_aux rest (shift + 7) result'

/-- `BinaryReader._read_7bit_int` started with `result = 0`, `shift = 0`. -/
def read_7bit_int (bs : List Nat) : Option (Nat × List Nat) :=
  read_7bit_int_aux bs 0 0

/-- Well-formed encoding: every byte is a byte value, every byte but the last
has the continuation bit set, and the last has it clear. -/
def wf7 : List Nat → Bool
  | [] => false
  | [b] => decide (b < 128)
  | b :: rest => decide (128 ≤ b) && decide (b < 256) && wf7 rest

/-- Well-formed encoding of a positive value (final 7-bit group non-zero). -/
def canonical_7bit_pos : List Nat → Bool
  | [] => false
  | [b] => decide (0 < b) && decide (b < 128)
  | b :: rest => decide (128 ≤ b) && decide (b < 256) && canonical_7bit_pos rest

/-- Canonical encoding: well formed and with no redundant trailing zero group
(the byte sequences the encoder actually produces). -/
def canonical_7bit : List Nat → Bool
  | [] => false
  | [b] => decide (b < 128)
  | b :: rest => decide (128 ≤ b) && decide (b < 256) && canonical_7bit_pos rest

/-- Value denoted by a 7-bit group list, least-significant group first
(helper for stating the decode lemmas). -/
def val7 : List Nat → Nat
  | [] => 0
  | b :: rest => b % 128 + 128 * val7 rest

/-! ## Wire packing helpers (`struct.pack`/`unpack` as used in the sources) -/

/-- `struct.pack("<H", v)` for an in-range value (the theorems carry the
`v ≤ 65535` bound under which Python does not raise). -/
def pack_uint16_le (v : Nat) : List Nat :=
  [v % 256, v / 256 % 256]

/-- `struct.pack("<h", v)` for `-32768 ≤ v ≤ 32767`: two's-complement bytes. -/
def pack_int16_le (v : Int) : List Nat :=
  pack_uint16_le (v % 65536).toNat

/-- `struct.unpack("<H", bytes)` on two byte values. -/
def unpack_uint16_le (b0 b1 : Nat) : Nat :=
  b0 + 256 * b1

/-- `struct.unpack("<h", bytes)` on two byte values. -/
def unpack_int16_le (b0 b1 : Nat) : Int :=
  let u := b0 + 256 * b1
  if u < 32768 then (u : Int) else (u : Int) - 65536

/-- Framing part of `Packet.to_bytes`:
`[uint16 total_length][int16 packet_id][payload]`, `total_length = 4 + len(payload)`. -/
def packet_frame (packet_id : Int) (payload : List Nat) : List Nat :=
  pack_uint16_le (4 + payload.length) ++ pack_int16_le packet_id ++ payload

/-! ## Message catalogue and `parse_server_packet` (`mirbot/packets.py`) -/

/-- Outcome of `parse_server_packet`: registry miss returns `None` (unknown),
a raising `read_packet`/`gzip.decompress` is a failure, otherwise a packet. -/
inductive ParseOutcome (α : Type) where
  | unknown : ParseOutcome α
  | failed : String → ParseOutcome α
  | ok : α → ParseOutcome α
deriving DecidableEq

/-- The `_SERVER_PACKETS` registry: packet id to decode routine.  The decode
routine models `cls(); gzip.decompress if compressed; pkt.read_packet(...)`
and may fail. -/
abbrev Catalogue (α : Type) := Int → Option (List Nat → Except String α)

/-- `parse_server_packet(packet_id, data)`. -/
def parse_server_packet (cat : Catalogue α) (packet_id : Int) (data : List Nat) :
    ParseOutcome α :=
  match cat packet_id with
  | none => ParseOutcome.unknown
  | some dec =>
    match dec data with
    | Except.error e => ParseOutcome.failed e
    | Except.ok pkt => ParseOutcome.ok pkt

/-! ## Connection (`mirbot/connection.py`) -/

/-- State of an asyncio task held by the connection. -/
inductive TaskState where
  | running
  | cancelled
  | finished
deriving DecidableEq

/-- `task.cancel()` on an optional task: a running task becomes cancelled,
a task that already finished (or was already cancelled) is unchanged, and a
missing task is left missing. -/
def cancel_task : Option TaskState → Option TaskState
  | some TaskState.running => some TaskState.cancelled
  | t => t

/-- A task loop reaching its `finally` and returning. -/
def finish_task : Option TaskState → Option TaskState
  | some TaskState.running => some TaskState.finished
  | t => t

/-- `MirConnection.__init__` fields.  `reader`/`writer` record whether the
stream halves are present (`is not None`); callbacks are identifiers. -/
structure MirConnection where
  reader : Bool := false
  writer : Bool := false
  handlers : Int → List Nat := fun _ => []
  default_handler : Option Nat := none
  receive_task : Option TaskState := none
  keepalive_task : Option TaskState := none
  connected : Bool := false
  disconnect_event : Bool := false

/-- `MirConnection.on_packet`: append to the per-id handler list. -/
def on_packet (c : MirConnection) (packet_id : Int) (cb : Nat) : MirConnection :=
  { c with handlers := Function.update c.handlers packet_id (c.handlers packet_id ++ [cb]) }

/-- `MirConnection.on_any_packet`: `self._default_handler = callback`. -/
def on_any_packet (c : MirConnection) (cb : Nat) : MirConnection :=
  { c with default_handler := some cb }

/-- The any-packet callbacks `_receive_loop` runs for one decoded message:
`if self._default_handler: self._default_handler(pkt)`. -/
def any_packet_callbacks_run (c : MirConnection) : List Nat :=
  match c.default_handler with
  | some h => [h]
  | none => []

/-- `MirConnection.disconnect`.  Every exception this method can meet is
caught in the source (`CancelledError` on both awaited tasks, any exception
from `wait_closed`), so it embeds as a total function on the connection state. -/
def disconnect (c : MirConnection) : MirConnection :=
  { c with
    connected := false
    disconnect_event := true
    keepalive_task := cancel_task c.keepalive_task
    receive_task := cancel_task c.receive_task
    reader := false
    writer := false }

/-- The `finally` of `_receive_loop` when the peer closes the stream
(`IncompleteReadError` path): mark disconnected, wake waiters, and the
receive task itself completes. -/
def receive_loop_ended (c : MirConnection) : MirConnection :=
  { c with
    connected := false
    disconnect_event := true
    receive_task := finish_task c.receive_task }

/-- `wait_disconnect` returns immediately exactly when the event is set. -/
def wait_disconnect_immediate (c : MirConnection) : Bool :=
  c.disconnect_event

/-- One iteration of `_receive_loop` on the pending byte stream: either a
frame is consumed (possibly dispatching a decoded packet) and the loop
continues on the remaining bytes, or the loop terminates. -/
inductive StepResult (α : Type) where
  | continueWith : Option α → List Nat → StepResult α
  | closed : StepResult α
deriving DecidableEq

/-- Body of `_receive_loop` for a single frame.  Reads the 2-byte length
header; a declared length below 4 is logged and skipped (loop resumes at the
next 2 bytes).  Otherwise reads `total_length - 2` further bytes, splits off
the signed 16-bit packet id, and parses: a parse failure or an unknown id
drops the frame and continues.  Insufficient bytes model
`IncompleteReadError`, which terminates the loop. -/
def receive_step (cat : Catalogue α) (stream : List Nat) : StepResult α :=
  match stream with
  | b0 :: b1 :: rest =>
    let total_length := unpack_uint16_le b0 b1
    if total_length < 4 then StepResult.continueWith none rest
    else
      let remaining := total_length - 2
      if remaining ≤ rest.length then
        match rest.take remaining with
        | k0 :: k1 :: payload =>
          let packet_id := unpack_int16_le k0 k1
          match parse_server_packet cat packet_id payload with
          | ParseOutcome.unknown => StepResult.continueWith none (rest.drop remaining)
          | ParseOutcome.failed _ => StepResult.continueWith none (rest.drop remaining)
          | ParseOutcome.ok pkt => StepResult.continueWith (some pkt) (rest.drop remaining)
        | _ => StepResult.closed
      else StepResult.closed
  | _ => StepResult.closed

/-! ## Correlator: `MirClient._wait_for` and `_dispatch_waiter` (`mirbot/client.py`) -/

/-- A decoded server message as the waiter machinery sees it: its packet id
plus an abstract body distinguishing distinct messages of one kind. -/
structure ServerMessage where
  packet_id : Int
  body : Nat
deriving DecidableEq

/-- State of one `asyncio.Future` created by `_wait_for`. -/
inductive FutureState where
  | pending
  | done : ServerMessage → FutureState
deriving DecidableEq

/-- The futures, by identifier. -/
abbrev FutureStore := Nat → FutureState

/-- `MirClient._waiters`: packet id to the ordered list of pending future ids. -/
abbrev WaiterMap := Int → List Nat

/-- Loop body of `_dispatch_waiter`: `if not fut.done(): fut.set_result(pkt)`. -/
def fulfill_step (pkt : ServerMessage) (st : FutureStore) (f : Nat) : FutureStore :=
  match st f with
  | FutureState.pending => Function.update st f (FutureState.done pkt)
  | FutureState.done _ => st

/-- `MirClient._dispatch_waiter`: run the loop body over every future
registered for the message's packet id.  The waiter lists themselves are not
modified here; only `_wait_for`'s cleanup removes entries. -/
def dispatch_waiter (w : WaiterMap) (store : FutureStore) (pkt : ServerMessage) :
    FutureStore :=
  (w pkt.packet_id).foldl (fulfill_step pkt) store

/-- Registration phase of `_wait_for`:
`for pid in ids: self._waiters.setdefault(pid, []).append(fut)`, one fresh
future per id, given here as `(pid, fut)` pairs in creation order. -/
def register_waiters (pairs : List (Int × Nat)) (w : WaiterMap) : WaiterMap :=
  pairs.foldl (fun w p => Function.update w p.1 (w p.1 ++ [p.2])) w

/-- Cleanup (`finally`) phase of `_wait_for`:
`for pid in ids: for f in futures: if f in waiters: waiters.remove(f)`.
`List.erase` removes the first occurrence and is a no-op when absent,
exactly the guarded `remove`. -/
def cleanup_waiters (ids : List Int) (futures : List Nat) (w : WaiterMap) : WaiterMap :=
  ids.foldl (fun w pid => Function.update w pid (futures.foldl List.erase (w pid))) w

/-- Result of a `_wait_for` call: the returned packet or the raised
`TimeoutError`, together with the waiter map it leaves behind. -/
structure WaitResult where
  value : Except String ServerMessage
  waiters : WaiterMap

/-- `MirClient._wait_for(packet_id, timeout, alt_ids)`.  `futures` are the
fresh future identifiers created for `packet_id :: alt_ids` in order;
`delivered` is the message that fulfilled one of them within the timeout, or
`none` if the shared timeout elapsed.  Registration happens first, cleanup
runs in the `finally` on every exit path, and a timeout raises. -/
def wait_for (packet_id : Int) (alt_ids : List Int) (futures : List Nat)
    (delivered : Option ServerMessage) (w : WaiterMap) : WaitResult :=
  let ids := packet_id :: alt_ids
  let w1 := register_waiters (ids.zip futures) w
  let w2 := cleanup_waiters ids futures w1
  { value :=
      match delivered with
      | some pkt => Except.ok pkt
      | none => Except.error "TimeoutError"
    waiters := w2 }

/-! ## State projection (`mirbot/state.py`) -/

/-- `GameStage` (from `mirbot/enums.py`, used by `state.py` and `client.py`). -/
inductive GameStage where
  | NONE
  | LOGIN
  | SELECT
  | GAME
deriving DecidableEq

/-- `ObjectInfo` dataclass with its field defaults.  The `extras` dict is
omitted: none of the handlers verified here touch it. -/
structure ObjectInfo where
  object_id : Nat := 0
  name : String := ""
  location : Int × Int := (0, 0)
  direction : Nat := 0
  dead : Bool := false
deriving DecidableEq

/-- One entry of the character-select roster (`_read_select_info`). -/
structure SelectInfo where
  index : Int := 0
  name : String := ""
  level : Nat := 0
  class_ : Nat := 0
  gender : Nat := 0
  last_access : Int := 0
deriving DecidableEq

/-- A nearby-entity table `dict[int, ObjectInfo]`. -/
abbrev ObjTable := Nat → Option ObjectInfo

/-- The empty table (result of `dict.clear()`). -/
def emptyTable : ObjTable := fun _ => none

/-- `GameState`, restricted to the fields touched by the handlers verified
here (map identity, own position, gold, the four nearby-entity tables, the
character roster and the stage); defaults mirror the dataclass defaults. -/
structure GameState where
  stage : GameStage := GameStage.NONE
  location : Int × Int := (0, 0)
  direction : Nat := 0
  gold : Int := 0
  map_index : Int := 0
  map_title : String := ""
  map_file : String := ""
  players : ObjTable := emptyTable
  monsters : ObjTable := emptyTable
  npcs : ObjTable := emptyTable
  ground_items : ObjTable := emptyTable
  characters : List SelectInfo := []

/-- Fields of `S_MapChanged.read_packet`. -/
structure S_MapChanged where
  map_index : Int := 0
  file_name : String := ""
  title : String := ""
  mini_map : Nat := 0
  big_map : Nat := 0
  lights : Nat := 0
  location : Int × Int := (0, 0)
  direction : Nat := 0
  map_dark_light : Nat := 0
  music : Nat := 0
  weather : Nat := 0
deriving DecidableEq

/-- `S_GainedGold` (`gold` read as uint32, hence a natural number). -/
structure S_GainedGold where
  gold : Nat := 0
deriving DecidableEq

/-- `S_LoseGold` (`gold` read as uint32). -/
structure S_LoseGold where
  gold : Nat := 0
deriving DecidableEq

/-- `S_LogOutSuccess` carries the character-select roster. -/
structure S_LogOutSuccess where
  characters : List SelectInfo := []
deriving DecidableEq

/-- Shared shape of `S_ObjectTurn` / `S_ObjectWalk` / `S_ObjectRun`. -/
structure S_ObjectMove where
  object_id : Nat := 0
  location : Int × Int := (0, 0)
  direction : Nat := 0
deriving DecidableEq

/-- `on_map_changed`: replace map identity and own position, then clear all
four nearby-entity tables, as a single reducer step. -/
def on_map_changed (pkt : S_MapChanged) (s : GameState) : GameState :=
  { s with
    map_index := pkt.map_index
    map_file := pkt.file_name
    map_title := pkt.title
    location := pkt.location
    direction := pkt.direction
    players := emptyTable
    monsters := emptyTable
    npcs := emptyTable
    ground_items := emptyTable }

/-- `on_gained_gold`: `state.gold += pkt.gold`. -/
def on_gained_gold (pkt : S_GainedGold) (s : GameState) : GameState :=
  { s with gold := s.gold + pkt.gold }

/-- `on_lose_gold`: `state.gold = max(0, state.gold - pkt.gold)`. -/
def on_lose_gold (pkt : S_LoseGold) (s : GameState) : GameState :=
  { s with gold := max 0 (s.gold - pkt.gold) }

/-- `on_logout_success`: replace the roster, go to character select, and
clear all four nearby-entity tables. -/
def on_logout_success (pkt : S_LogOutSuccess) (s : GameState) : GameState :=
  { s with
    characters := pkt.characters
    stage := GameStage.SELECT
    players := emptyTable
    monsters := emptyTable
    npcs := emptyTable
    ground_items := emptyTable }

/-- The in-place mutation `obj.location = location; obj.direction = direction`. -/
def set_pos (o : ObjectInfo) (location : Int × Int) (direction : Nat) : ObjectInfo :=
  { o with location := location, direction := direction }

/-- `_update_object_pos`: search players, then monsters, then NPCs; update
the first match and stop; do nothing when the id is found nowhere. -/
def update_object_pos (object_id : Nat) (location : Int × Int) (direction : Nat)
    (s : GameState) : GameState :=
  match s.players object_id with
  | some o =>
    { s with players := Function.update s.players object_id (some (set_pos o location direction)) }
  | none =>
    match s.monsters object_id with
    | some o =>
      { s with monsters := Function.update s.monsters object_id (some (set_pos o location direction)) }
    | none =>
      match s.npcs object_id with
      | some o =>
        { s with npcs := Function.update s.npcs object_id (some (set_pos o location direction)) }
      | none => s

/-- `on_object_turn`. -/
def on_object_turn (pkt : S_ObjectMove) (s : GameState) : GameState :=
  update_object_pos pkt.object_id pkt.location pkt.direction s

/-- `on_object_walk`. -/
def on_object_walk (pkt : S_ObjectMove) (s : GameState) : GameState :=
  update_object_pos pkt.object_id pkt.location pkt.direction s

/-- `on_object_run`. -/
def on_object_run (pkt : S_ObjectMove) (s : GameState) : GameState :=
  update_object_pos pkt.object_id pkt.location pkt.direction s

/-! ## Theorems -/

/-- C3: processing a single map-change message leaves all four nearby-entity
tables empty and sets the map identity (index, file name, title) to the values
carried by the message, for every starting state however populated; the clear
and the identity update happen in the same reducer step, so no state with only
some of the four tables cleared is ever observable. -/
theorem on_map_changed_atomic (pkt : S_MapChanged) (s : GameState) :
    (on_map_changed pkt s).players = emptyTable ∧
    (on_map_changed pkt s).monsters = emptyTable ∧
    (on_map_changed pkt s).npcs = emptyTable ∧
    (on_map_changed pkt s).ground_items = emptyTable ∧
    (on_map_changed pkt s).map_index = pkt.map_index ∧
    (on_map_changed pkt s).map_file = pkt.file_name ∧
    (on_map_changed pkt s).map_title = pkt.title :=
  ⟨rfl, rfl, rfl, rfl, rfl, rfl, rfl⟩

/-- C10: processing a logout-success message clears all four nearby-entity
tables, replaces the character roster with the one carried by the message,
and sets the stage to character select. -/
theorem on_logout_success_resets (pkt : S_LogOutSuccess) (s : GameState) :
    (on_logout_success pkt s).players = emptyTable ∧
    (on_logout_success pkt s).monsters = emptyTable ∧
    (on_logout_success pkt s).npcs = emptyTable ∧
    (on_logout_success pkt s).ground_items = emptyTable ∧
    (on_logout_success pkt s).characters = pkt.characters ∧
    (on_logout_success pkt s).stage = GameStage.SELECT :=
  ⟨rfl, rfl, rfl, rfl, rfl, rfl⟩

/-- C5, counterexample: with 5 gold, a lose-gold message carrying 10 leaves
gold at 0, not at the previous gold minus 10 (which would be -5): the delta is
clamped at zero, not purely subtractive. -/
theorem lose_gold_not_subtractive :
    (on_lose_gold { gold := 10 } { gold := 5 }).gold = 0 ∧
    (5 : Int) - 10 ≠ 0 := by
  constructor
  · rfl
  · decide

/-- C5 as amended: a gained-gold message carrying g adds g to the current
gold; a lose-gold message carrying g sets gold to max(0, gold - g), i.e. it
subtracts g but clamps the result at zero. -/
theorem gold_delta_spec (s : GameState) (gp : S_GainedGold) (lp : S_LoseGold) :
    (on_gained_gold gp s).gold = s.gold + gp.gold ∧
    (on_lose_gold lp s).gold = max 0 (s.gold - lp.gold) :=
  ⟨rfl, rfl⟩

/-- C4, counterexample: `on_any_packet` stores the callback in the single
`_default_handler` slot, so after registering callback 1 and then callback 2,
only callback 2 runs for an inbound message and callback 1 is never invoked —
the claim that both run in registration order fails. -/
theorem on_any_packet_overwrites :
    any_packet_callbacks_run (on_any_packet (on_any_packet {} 1) 2) = [2] ∧
    (1 : Nat) ∉ any_packet_callbacks_run (on_any_packet (on_any_packet {} 1) 2) := by
  constructor
  · rfl
  · decide

/-- C4 as amended: registering a second any-packet callback replaces the
first, and exactly the most recently registered callback is invoked (once)
for each inbound decoded message. -/
theorem on_any_packet_last_wins (c : MirConnection) (a b : Nat) :
    on_any_packet (on_any_packet c a) b = on_any_packet c b ∧
    any_packet_callbacks_run (on_any_packet c b) = [b] :=
  ⟨rfl, rfl⟩

/-- Auxiliary: `cancel_task` is idempotent. -/
theorem cancel_task_idem (t : Option TaskState) :
    cancel_task (cancel_task t) = cancel_task t := by
  rcases t with _ | t
  · rfl
  · cases t <;> rfl

/-- C8: `disconnect` is idempotent — a second call produces the same state and
raises nothing (every exception path in the source is caught, so the embedding
is total) — and both after a double disconnect and after disconnecting a
connection whose receive loop already ended on peer close, `connected` is
false and the disconnect event is set, so `wait_disconnect` returns
immediately. -/
theorem disconnect_idempotent (c : MirConnection) :
    disconnect (disconnect c) = disconnect c ∧
    (disconnect (disconnect c)).connected = false ∧
    (disconnect (disconnect c)).disconnect_event = true ∧
    (disconnect (receive_loop_ended c)).connected = false ∧
    (disconnect (receive_loop_ended c)).disconnect_event = true ∧
    wait_disconnect_immediate (disconnect c) = true ∧
    wait_disconnect_immediate (disconnect (receive_loop_ended c)) = true := by
  refine ⟨?_, rfl, rfl, rfl, rfl, rfl, rfl⟩
  simp only [disconnect, cancel_task_idem]

/-- Auxiliary: the dispatch loop never overwrites an already-fulfilled future. -/
theorem fulfill_fold_preserves_done (pkt : ServerMessage) (l : List Nat) :
    ∀ (store : FutureStore) (f : Nat) (p : ServerMessage),
      store f = FutureState.done p →
      l.foldl (fulfill_step pkt) store f = FutureState.done p := by
  induction l with
  | nil => intro store f p h; simpa using h
  | cons g rest ih =>
    intro store f p h
    simp only [List.foldl_cons]
    apply ih
    unfold fulfill_step
    rcases hg : store g with _ | q
    · have hfg : f ≠ g := by
        intro e
        rw [e, hg] at h
        exact FutureState.noConfusion h
      show Function.update store g (FutureState.done pkt) f = FutureState.done p
      rw [Function.update_noteq hfg]
      exact h
    · exact h

/-- Auxiliary: the dispatch loop fulfills every pending future in its list. -/
theorem fulfill_fold_fulfills (pkt : ServerMessage) (l : List Nat) :
    ∀ (store : FutureStore) (f : Nat),
      f ∈ l → store f = FutureState.pending →
      l.foldl (fulfill_step pkt) store f = FutureState.done pkt := by
  induction l with
  | nil => intro store f h; exact absurd h (List.not_mem_nil f)
  | cons g rest ih =>
    intro store f hmem hp
    simp only [List.foldl_cons]
    rcases List.mem_cons.mp hmem with he | hrest
    · subst he
      have : fulfill_step pkt store f f = FutureState.done pkt := by
        unfold fulfill_step
        rw [hp]
        simp [Function.update]
      exact fulfill_fold_preserves_done pkt rest _ f pkt this
    · by_cases he : f = g
      · subst he
        have : fulfill_step pkt store f f = FutureState.done pkt := by
          unfold fulfill_step
          rw [hp]
          simp [Function.update]
        exact fulfill_fold_preserves_done pkt rest _ f pkt this
      · apply ih _ f hrest
        unfold fulfill_step
        rcases hg : store g with _ | q
        · show Function.update store g (FutureState.done pkt) f = FutureState.pending
          rw [Function.update_noteq he]
          exact hp
        · exact hp

/-- C1, counterexample: with two waiters (futures 1 and 2) registered for
kind 5 and two messages of kind 5 dispatched in sequence, `_dispatch_waiter`
sets the FIRST message as the result of BOTH futures, and the second message
fulfills neither — a single message does fulfill both waiters, so the claimed
one-message-per-waiter isolation fails. -/
theorem dispatch_waiter_no_isolation :
    (dispatch_waiter (fun k => if k = 5 then [1, 2] else []) (fun _ => FutureState.pending)
        { packet_id := 5, body := 100 } 1 =
      FutureState.done { packet_id := 5, body := 100 }) ∧
    (dispatch_waiter (fun k => if k = 5 then [1, 2] else []) (fun _ => FutureState.pending)
        { packet_id := 5, body := 100 } 2 =
      FutureState.done { packet_id := 5, body := 100 }) ∧
    (dispatch_waiter (fun k => if k = 5 then [1, 2] else [])
        (dispatch_waiter (fun k => if k = 5 then [1, 2] else []) (fun _ => FutureState.pending)
          { packet_id := 5, body := 100 })
        { packet_id := 5, body := 200 } 1 =
      FutureState.done { packet_id := 5, body := 100 }) ∧
    (dispatch_waiter (fun k => if k = 5 then [1, 2] else [])
        (dispatch_waiter (fun k => if k = 5 then [1, 2] else []) (fun _ => FutureState.pending)
          { packet_id := 5, body := 100 })
        { packet_id := 5, body := 200 } 2 =
      FutureState.done { packet_id := 5, body := 100 }) := by
  refine ⟨?_, ?_, ?_, ?_⟩ <;> decide

/-- C1 as amended: `_dispatch_waiter` broadcasts — a dispatched message
fulfills EVERY future that is registered for its kind and still pending at
delivery time (so one message can fulfill several concurrent waiters for the
same kind), while a future that is already fulfilled is never overwritten
(no waiter is fulfilled twice). -/
theorem dispatch_waiter_broadcast (w : WaiterMap) (store : FutureStore)
    (pkt : ServerMessage) (f : Nat) :
    (f ∈ w pkt.packet_id → store f = FutureState.pending →
      dispatch_waiter w store pkt f = FutureState.done pkt) ∧
    (∀ p, store f = FutureState.done p →
      dispatch_waiter w store pkt f = FutureState.done p) := by
  constructor
  · intro hmem hp
    exact fulfill_fold_fulfills pkt _ store f hmem hp
  · intro p hp
    exact fulfill_fold_preserves_done pkt _ store f p hp

/-- Witness for C1's amended theorem at a concrete registry and store. -/
theorem dispatch_waiter_broadcast_witness :
    ((1 : Nat) ∈ (fun k => if k = (5 : Int) then [1, 2] else ([] : List Nat))
        (ServerMessage.packet_id { packet_id := 5, body := 100 }) ∧
      dispatch_waiter (fun k => if k = 5 then [1, 2] else []) (fun _ => FutureState.pending)
        { packet_id := 5, body := 100 } 1 =
        FutureState.done { packet_id := 5, body := 100 }) ∧
    dispatch_waiter (fun k => if k = 5 then [1, 2] else [])
        (fun f => if f = 1 then FutureState.done { packet_id := 5, body := 77 }
                  else FutureState.pending)
        { packet_id := 5, body := 100 } 1 =
      FutureState.done { packet_id := 5, body := 77 } :=
  ⟨⟨by decide,
    (dispatch_waiter_broadcast (fun k => if k = 5 then [1, 2] else [])
      (fun _ => FutureState.pending) { packet_id := 5, body := 100 } 1).1 (by decide) rfl⟩,
    (dispatch_waiter_broadcast (fun k => if k = 5 then [1, 2] else [])
      (fun f => if f = 1 then FutureState.done { packet_id := 5, body := 77 }
                else FutureState.pending)
      { packet_id := 5, body := 100 } 1).2 { packet_id := 5, body := 77 } rfl⟩

/-- C6: an object-position update (turn, walk or run) searches the player,
monster, then NPC tables in that order and rewrites only the first entry
found under the id — the produced state differs from the original in that one
table alone, so a same-id entry in any later table is untouched — and when
the id is in none of the three tables the update is the identity, not an
error. -/
theorem update_object_pos_first_match (s : GameState) (oid : Nat)
    (loc : Int × Int) (dir : Nat) :
    (∀ o, s.players oid = some o →
      update_object_pos oid loc dir s =
        { s with players := Function.update s.players oid (some (set_pos o loc dir)) }) ∧
    (s.players oid = none → ∀ o, s.monsters oid = some o →
      update_object_pos oid loc dir s =
        { s with monsters := Function.update s.monsters oid (some (set_pos o loc dir)) }) ∧
    (s.players oid = none → s.monsters oid = none → ∀ o, s.npcs oid = some o →
      update_object_pos oid loc dir s =
        { s with npcs := Function.update s.npcs oid (some (set_pos o loc dir)) }) ∧
    (s.players oid = none → s.monsters oid = none → s.npcs oid = none →
      update_object_pos oid loc dir s = s) := by
  refine ⟨?_, ?_, ?_, ?_⟩
  · intro o h
    simp [update_object_pos, h]
  · intro hp o h
    simp [update_object_pos, hp, h]
  · intro hp hm o h
    simp [update_object_pos, hp, hm, h]
  · intro hp hm hn
    simp [update_object_pos, hp, hm, hn]

/-- Witness for C6 at a state holding object id 7 in both the player and the
monster table: only the player entry is rewritten. -/
theorem update_object_pos_first_match_witness :
    (Function.update emptyTable 7 (some { object_id := 7 }) :
        ObjTable) 7 = some { object_id := 7 } ∧
    update_object_pos 7 (3, 4) 2
        { players := Function.update emptyTable 7 (some { object_id := 7 })
          monsters := Function.update emptyTable 7 (some { object_id := 7, name := "mob" }) } =
      { players := Function.update (Function.update emptyTable 7 (some { object_id := 7 })) 7
          (some (set_pos { object_id := 7 } (3, 4) 2))
        monsters := Function.update emptyTable 7 (some { object_id := 7, name := "mob" }) } :=
  ⟨by simp,
    (update_object_pos_first_match
        { players := Function.update emptyTable 7 (some { object_id := 7 })
          monsters := Function.update emptyTable 7 (some { object_id := 7, name := "mob" }) }
        7 (3, 4) 2).1 { object_id := 7 } (by simp)⟩

/-- Auxiliary: pointwise effect of the registration loop of `_wait_for`. -/
theorem register_waiters_apply (pairs : List (Int × Nat)) :
    ∀ (w : WaiterMap) (q : Int),
      register_waiters pairs w q =
        w q ++ pairs.filterMap (fun p => if p.1 = q then some p.2 else none) := by
  induction pairs with
  | nil => intro w q; simp [register_waiters]
  | cons p rest ih =>
    intro w q
    simp only [register_waiters, List.foldl_cons] at ih ⊢
    rw [ih]
    by_cases hq : p.1 = q
    · subst hq
      rw [Function.update_same]
      simp [List.filterMap_cons]
    · rw [Function.update_noteq (Ne.symm hq)]
      simp [List.filterMap_cons, hq]

/-- Auxiliary: the futures registered at one key form a sublist of all the
futures created by the call. -/
theorem filterMap_if_sublist (pairs : List (Int × Nat)) (q : Int) :
    (pairs.filterMap (fun p => if p.1 = q then some p.2 else none)).Sublist
      (pairs.map Prod.snd) := by
  induction pairs with
  | nil => simp
  | cons p rest ih =>
    simp only [List.filterMap_cons, List.map_cons]
    by_cases hq : p.1 = q
    · simp only [hq, if_pos rfl]
      exact ih.cons₂ p.2
    · simp only [if_neg hq]
      exact ih.cons p.2

/-- Auxiliary: erasing elements that do not occur is the identity. -/
theorem erase_fold_of_disjoint (futs : List Nat) :
    ∀ (l : List Nat), (∀ f ∈ futs, f ∉ l) → futs.foldl List.erase l = l := by
  induction futs with
  | nil => intro l _; rfl
  | cons f rest ih =>
    intro l h
    simp only [List.foldl_cons]
    rw [List.erase_of_not_mem (h f (List.mem_cons_self f rest))]
    exact ih l fun x hx => h x (List.mem_cons_of_mem f hx)

/-- Auxiliary: the cleanup loop of `_wait_for` removes exactly the appended
registrations, restoring the original list. -/
theorem erase_fold_append {F futs : List Nat} (hsub : F.Sublist futs) :
    futs.Nodup → ∀ (l : List Nat), (∀ f ∈ futs, f ∉ l) →
      futs.foldl List.erase (l ++ F) = l := by
  induction hsub with
  | slnil =>
    intro _ l _
    simp
  | @cons F l₂ a hsub ih =>
    intro hnd l hl
    simp only [List.foldl_cons]
    have ha_l : a ∉ l := hl a (List.mem_cons_self a l₂)
    have ha_l₂ : a ∉ l₂ := (List.nodup_cons.mp hnd).1
    have ha_F : a ∉ F := fun hf => ha_l₂ (hsub.subset hf)
    rw [List.erase_of_not_mem (by
      intro hmem
      rcases List.mem_append.mp hmem with h | h
      · exact ha_l h
      · exact ha_F h)]
    exact ih (List.nodup_cons.mp hnd).2 l fun x hx => hl x (List.mem_cons_of_mem a hx)
  | @cons₂ F l₂ a hsub ih =>
    intro hnd l hl
    simp only [List.foldl_cons]
    have ha_l : a ∉ l := hl a (List.mem_cons_self a l₂)
    rw [List.erase_append_right _ ha_l, List.erase_cons_head]
    exact ih (List.nodup_cons.mp hnd).2 l fun x hx => hl x (List.mem_cons_of_mem a hx)

/-- Auxiliary: pointwise effect of the cleanup loop of `_wait_for`. -/
theorem cleanup_pointwise (futs : List Nat) (ids : List Int) :
    ∀ (v w : WaiterMap),
      (∀ q, futs.foldl List.erase (v q) = w q) →
      (∀ q, futs.foldl List.erase (w q) = w q) →
      ∀ q, cleanup_waiters ids futs v q = if q ∈ ids then w q else v q := by
  induction ids with
  | nil =>
    intro v w _ _ q
    simp [cleanup_waiters]
  | cons i rest ih =>
    intro v w h1 h2 q
    simp only [cleanup_waiters, List.foldl_cons] at ih ⊢
    have hv' : ∀ r,
        futs.foldl List.erase (Function.update v i (futs.foldl List.erase (v i)) r) = w r := by
      intro r
      by_cases hr : r = i
      · subst hr
        rw [Function.update_same, h1 r]
        exact h2 r
      · rw [Function.update_noteq hr]
        exact h1 r
    rw [ih _ w hv' h2 q]
    by_cases hq : q ∈ rest
    · simp [hq, List.mem_cons]
    · by_cases hqi : q = i
      · subst hqi
        rw [if_neg hq, Function.update_same, h1 q]
        simp [List.mem_cons]
      · rw [if_neg hq, Function.update_noteq hqi]
        have : q ∉ i :: rest := by
          simp [List.mem_cons, hqi, hq]
        rw [if_neg this]

/-- C2: a `_wait_for(packet_id, timeout, alt_ids)` call that ends — fulfilled
or timed out — removes every waiter registration it created (the primary kind
and every alternate, fired or not) in its `finally`, leaving the waiter map
exactly as it was before the call; and when no message arrived in time the
call raises `TimeoutError`.  The futures it registers are freshly created, so
they are pairwise distinct and absent from the prior map. -/
theorem wait_for_cleanup (packet_id : Int) (alt_ids : List Int) (futures : List Nat)
    (delivered : Option ServerMessage) (w : WaiterMap)
    (hlen : futures.length = alt_ids.length + 1)
    (hnodup : futures.Nodup)
    (hfresh : ∀ f ∈ futures, ∀ pid, f ∉ w pid) :
    (wait_for packet_id alt_ids futures delivered w).waiters = w ∧
    (wait_for packet_id alt_ids futures none w).value = Except.error "TimeoutError" := by
  refine ⟨?_, rfl⟩
  show cleanup_waiters (packet_id :: alt_ids) futures
      (register_waiters ((packet_id :: alt_ids).zip futures) w) = w
  funext q
  have hmapsnd : ((packet_id :: alt_ids).zip futures).map Prod.snd = futures := by
    apply List.map_snd_zip
    simp [hlen]
  have hFsub : ∀ r,
      (((packet_id :: alt_ids).zip futures).filterMap
        (fun p => if p.1 = r then some p.2 else none)).Sublist futures := by
    intro r
    have h1 := filterMap_if_sublist ((packet_id :: alt_ids).zip futures) r
    rwa [hmapsnd] at h1
  have h1 : ∀ r,
      futures.foldl List.erase (register_waiters ((packet_id :: alt_ids).zip futures) w r) =
        w r := by
    intro r
    rw [register_waiters_apply]
    exact erase_fold_append (hFsub r) hnodup (w r) (fun f hf => hfresh f hf r)
  have h2 : ∀ r, futures.foldl List.erase (w r) = w r := fun r =>
    erase_fold_of_disjoint futures (w r) (fun f hf => hfresh f hf r)
  rw [cleanup_pointwise futures (packet_id :: alt_ids) _ w h1 h2 q]
  by_cases hq : q ∈ packet_id :: alt_ids
  · rw [if_pos hq]
  · rw [if_neg hq, register_waiters_apply]
    have hnil : (((packet_id :: alt_ids).zip futures).filterMap
        (fun p => if p.1 = q then some p.2 else none)) = [] := by
      rw [List.filterMap_eq_nil_iff]
      intro p hp
      have hp1 : p.1 ∈ packet_id :: alt_ids := (List.of_mem_zip hp).1
      have : p.1 ≠ q := fun he => hq (he ▸ hp1)
      simp [this]
    rw [hnil, List.append_nil]

/-- Witness for C2: a two-kind wait on an empty map, timing out, restores the
empty map and raises. -/
theorem wait_for_cleanup_witness :
    (([10, 11] : List Nat).length = ([2] : List Int).length + 1 ∧
      ([10, 11] : List Nat).Nodup ∧
      ∀ f ∈ ([10, 11] : List Nat), ∀ pid : Int, f ∉ (fun _ => ([] : List Nat)) pid) ∧
    (wait_for 1 [2] [10, 11] none (fun _ => [])).waiters = (fun _ => []) ∧
    (wait_for 1 [2] [10, 11] none (fun _ => [])).value = Except.error "TimeoutError" :=
  ⟨⟨by decide, by decide, by intro f _ pid; exact List.not_mem_nil f⟩,
    (wait_for_cleanup 1 [2] [10, 11] none (fun _ => []) (by decide) (by decide)
      (by intro f _ pid; exact List.not_mem_nil f)).1,
    (wait_for_cleanup 1 [2] [10, 11] none (fun _ => []) (by decide) (by decide)
      (by intro f _ pid; exact List.not_mem_nil f)).2⟩

/-- Auxiliary: unsigned 16-bit little-endian round trip. -/
theorem unpack_pack_uint16 (t : Nat) (h : t ≤ 65535) :
    unpack_uint16_le (t % 256) (t / 256 % 256) = t := by
  unfold unpack_uint16_le
  omega

/-- Auxiliary: signed 16-bit little-endian round trip. -/
theorem unpack_pack_int16 (k : Int) (h1 : -32768 ≤ k) (h2 : k < 32768) :
    unpack_int16_le ((k % 65536).toNat % 256) ((k % 65536).toNat / 256 % 256) = k := by
  simp only [unpack_int16_le]
  split <;> omega

/-- Auxiliary: `receive_step` on a well-formed frame reads exactly the frame
and hands the payload to `parse_server_packet`. -/
theorem receive_step_frame (cat : Catalogue α) (kid : Int) (payload rest : List Nat)
    (h1 : -32768 ≤ kid) (h2 : kid < 32768) (h3 : payload.length + 4 ≤ 65535) :
    receive_step cat (packet_frame kid payload ++ rest) =
      match parse_server_packet cat kid payload with
      | ParseOutcome.unknown => StepResult.continueWith none rest
      | ParseOutcome.failed _ => StepResult.continueWith none rest
      | ParseOutcome.ok pkt => StepResult.continueWith (some pkt) rest := by
  simp only [packet_frame, pack_int16_le, pack_uint16_le, List.cons_append,
    List.nil_append, receive_step]
  rw [unpack_pack_uint16 _ (by omega)]
  rw [if_neg (by omega : ¬ 4 + payload.length < 4)]
  have hrem : 4 + payload.length - 2 = payload.length + 1 + 1 := by omega
  rw [hrem]
  rw [if_pos (by simp [List.length_cons, List.length_append])]
  rw [List.take_succ_cons, List.take_succ_cons, List.take_left,
    List.drop_succ_cons, List.drop_succ_cons, List.drop_left]
  simp only [unpack_pack_int16 kid h1 h2]

/-- C7: per-frame error recovery in the receive loop — a frame whose declared
total length is below 4 is skipped, the loop resuming at the next 2 bytes
without closing the connection; a frame whose kind is absent from the
catalogue makes `parse_server_packet` return its none-outcome and the frame is
dropped with the loop continuing; and a frame whose payload fails catalogue
decoding is likewise dropped with the loop continuing — in each case the step
yields a continue result with no dispatched packet, never a closed
connection. -/
theorem receive_step_recovery (cat : Catalogue α) :
    (∀ (b0 b1 : Nat) (rest : List Nat), unpack_uint16_le b0 b1 < 4 →
      receive_step cat (b0 :: b1 :: rest) = StepResult.continueWith none rest) ∧
    (∀ (kid : Int) (payload rest : List Nat),
      -32768 ≤ kid → kid < 32768 → payload.length + 4 ≤ 65535 →
      cat kid = none →
      receive_step cat (packet_frame kid payload ++ rest) =
        StepResult.continueWith none rest) ∧
    (∀ (kid : Int) (payload rest : List Nat) (dec : List Nat → Except String α)
      (e : String),
      -32768 ≤ kid → kid < 32768 → payload.length + 4 ≤ 65535 →
      cat kid = some dec → dec payload = Except.error e →
      receive_step cat (packet_frame kid payload ++ rest) =
        StepResult.continueWith none rest) := by
  refine ⟨?_, ?_, ?_⟩
  · intro b0 b1 rest h
    simp only [receive_step]
    rw [if_pos h]
  · intro kid payload rest h1 h2 h3 hcat
    rw [receive_step_frame cat kid payload rest h1 h2 h3]
    simp [parse_server_packet, hcat]
  · intro kid payload rest dec e h1 h2 h3 hcat hdec
    rw [receive_step_frame cat kid payload rest h1 h2 h3]
    simp [parse_server_packet, hcat, hdec]

/-- Witness for C7 with a one-entry catalogue whose decoder always fails:
a short length is skipped, an unknown kind is dropped, a decode failure is
dropped, all with the loop continuing. -/
theorem receive_step_recovery_witness :
    (unpack_uint16_le 3 0 < 4 ∧
      receive_step (fun k => if k = 1 then some (fun _ => Except.error "bad")
          else (none : Option (List Nat → Except String Nat))) [3, 0, 9] =
        StepResult.continueWith none [9]) ∧
    receive_step (fun k => if k = 1 then some (fun _ => Except.error "bad")
        else (none : Option (List Nat → Except String Nat)))
        (packet_frame 2 [] ++ []) =
      StepResult.continueWith none [] ∧
    receive_step (fun k => if k = 1 then some (fun _ => Except.error "bad")
        else (none : Option (List Nat → Except String Nat)))
        (packet_frame 1 [] ++ []) =
      StepResult.continueWith none [] :=
  ⟨⟨by decide,
    (receive_step_recovery (fun k => if k = 1 then some (fun _ => Except.error "bad")
        else (none : Option (List Nat → Except String Nat)))).1 3 0 [9] (by decide)⟩,
    (receive_step_recovery (fun k => if k = 1 then some (fun _ => Except.error "bad")
        else (none : Option (List Nat → Except String Nat)))).2.1 2 [] [] (by decide)
      (by decide) (by decide) rfl,
    (receive_step_recovery (fun k => if k = 1 then some (fun _ => Except.error "bad")
        else (none : Option (List Nat → Except String Nat)))).2.2 1 [] []
      (fun _ => Except.error "bad") "bad" (by decide) (by decide) (by decide) rfl rfl⟩

/-- Auxiliary: masking with `0x7F` is reduction modulo 128. -/
theorem and_127_eq_mod (x : Nat) : x &&& 127 = x % 128 := by
  have h := Nat.and_pow_two_sub_one_eq_mod x 7
  norm_num at h
  exact h

/-- Auxiliary: a byte below 128 has the continuation bit clear. -/
theorem and_128_eq_zero_of_lt {b : Nat} (h : b < 128) : b &&& 128 = 0 := by
  have h2 := Nat.and_two_pow b 7
  have h3 : b.testBit 7 = false := Nat.testBit_lt_two_pow (by norm_num; omega)
  rw [h3] at h2
  simpa using h2

/-- Auxiliary: a byte in `[128, 256)` has the continuation bit set. -/
theorem and_128_eq_of_ge {b : Nat} (h1 : 128 ≤ b) (h2 : b < 256) : b &&& 128 = 128 := by
  have h := Nat.and_two_pow b 7
  have ht : b.testBit 7 = true := by
    rw [Nat.testBit_to_div_mod]
    norm_num
    omega
  rw [ht] at h
  simpa using h

/-- Auxiliary: `or`-ing bits shifted above an accumulator adds them. -/
theorem lor_shiftLeft_eq_add (s a x : Nat) (h : a < 2 ^ s) :
    a ||| (x <<< s) = a + x * 2 ^ s := by
  induction s generalizing a x with
  | zero =>
    have ha : a = 0 := by omega
    subst ha
    simp [Nat.shiftLeft_eq]
  | succ s ih =>
    have hbit : Nat.bit (Nat.bodd a) (Nat.div2 a) = a := Nat.bit_decomp a
    have hx : x <<< (s + 1) = Nat.bit false (x <<< s) := by
      simp only [Nat.bit, Nat.shiftLeft_eq, Nat.pow_succ, cond_false]
      ring
    have hdiv : Nat.div2 a < 2 ^ s := by
      rw [Nat.div2_val]
      rw [Nat.pow_succ] at h
      omega
    have hb : a = 2 * Nat.div2 a + (Nat.bodd a).toNat := by
      have := Nat.bit_val (Nat.bodd a) (Nat.div2 a)
      rw [hbit] at this
      omega
    rw [← hbit, hx, Nat.lor_bit, ih _ x hdiv, Bool.or_false, Nat.bit_val]
    rw [hbit] at *
    rw [Nat.pow_succ]
    have hp : x * (2 ^ s * 2) = (x * 2 ^ s) * 2 := by ring
    rw [hp]
    omega

/-- Auxiliary: the continuation byte the encoder emits, as an addition. -/
theorem encode_head_byte (n : Nat) : (n &&& 127) ||| 128 = n % 128 + 128 := by
  rw [and_127_eq_mod]
  have h := lor_shiftLeft_eq_add 7 (n % 128) 1 (by omega)
  norm_num [Nat.shiftLeft_eq] at h
  exact h

/-- Auxiliary: decoding the encoder's output at any shift and accumulator
adds the encoded value's bits above the accumulator and stops exactly at the
end of the encoding. -/
theorem read_aux_encode (n : Nat) :
    ∀ (shift acc : Nat) (rest : List Nat), acc < 2 ^ shift →
      read_7bit_int_aux (encode_7bit_int n ++ rest) shift acc =
        some (acc + n * 2 ^ shift, rest) := by
  induction n using Nat.strong_induction_on with
  | _ n ih =>
    intro shift acc rest hacc
    by_cases h : 128 ≤ n
    · rw [encode_7bit_int, dif_pos h]
      have hhead := encode_head_byte n
      have hcond : (n % 128 + 128) &&& 128 = 128 := and_128_eq_of_ge (by omega) (by omega)
      have hmask : (n % 128 + 128) &&& 127 = n % 128 := by
        rw [and_127_eq_mod]
        omega
      have hlt : n >>> 7 < n := by
        rw [Nat.shiftRight_eq_div_pow]
        exact Nat.div_lt_self (by omega) (by norm_num)
      have hacc' : acc + n % 128 * 2 ^ shift < 2 ^ (shift + 7) := by
        have hsplit : (2 : Nat) ^ (shift + 7) = 2 ^ shift * 128 := by
          rw [Nat.pow_add]
        rw [hsplit]
        have h128 : n % 128 < 128 := Nat.mod_lt n (by norm_num)
        nlinarith [Nat.two_pow_pos shift]
      simp only [List.cons_append, List.append_eq, read_7bit_int_aux, hhead, hcond, hmask]
      rw [if_neg (by decide : ¬ (128 : Nat) = 0)]
      rw [lor_shiftLeft_eq_add shift acc (n % 128) hacc]
      rw [ih (n >>> 7) hlt (shift + 7) (acc + n % 128 * 2 ^ shift) rest hacc']
      have harith : acc + n % 128 * 2 ^ shift + (n >>> 7) * 2 ^ (shift + 7) =
          acc + n * 2 ^ shift := by
        rw [Nat.shiftRight_eq_div_pow]
        have hsplit : (2 : Nat) ^ (shift + 7) = 2 ^ shift * 128 := by
          rw [Nat.pow_add]
        rw [hsplit]
        norm_num
        calc acc + n % 128 * 2 ^ shift + n / 128 * (2 ^ shift * 128)
            = acc + (n % 128 + 128 * (n / 128)) * 2 ^ shift := by ring
          _ = acc + n * 2 ^ shift := by rw [Nat.mod_add_div]
      rw [harith]
    · rw [encode_7bit_int, dif_neg h]
      have h127 : n &&& 127 = n := by
        rw [and_127_eq_mod]
        omega
      have hcond : n &&& 128 = 0 := and_128_eq_zero_of_lt (by omega)
      simp only [List.cons_append, List.append_eq, List.nil_append, read_7bit_int_aux,
        h127, hcond, if_pos]
      rw [lor_shiftLeft_eq_add shift acc n hacc]

/-- Auxiliary: decoding a well-formed byte list consumes it entirely and
yields its denoted value above the accumulator. -/
theorem read_aux_wf : ∀ (bs : List Nat), wf7 bs = true →
    ∀ (shift acc : Nat), acc < 2 ^ shift →
      read_7bit_int_aux bs shift acc = some (acc + val7 bs * 2 ^ shift, []) := by
  intro bs
  induction bs with
  | nil => intro h; simp [wf7] at h
  | cons b rest ih =>
    intro hwf shift acc hacc
    cases rest with
    | nil =>
      have hb : b < 128 := by simpa [wf7] using hwf
      have h127 : b &&& 127 = b := by
        rw [and_127_eq_mod]
        omega
      have hcond : b &&& 128 = 0 := and_128_eq_zero_of_lt hb
      simp only [read_7bit_int_aux, h127, hcond, if_pos]
      rw [lor_shiftLeft_eq_add shift acc b hacc]
      have hv : val7 [b] = b := by
        show b % 128 + 128 * val7 [] = b
        simp [val7]
        omega
      rw [hv]
    | cons c rest2 =>
      have hb : (128 ≤ b ∧ b < 256) ∧ wf7 (c :: rest2) = true := by
        have heq : wf7 (b :: c :: rest2) =
            (decide (128 ≤ b) && decide (b < 256) && wf7 (c :: rest2)) := rfl
        rw [heq] at hwf
        simp at hwf
        exact ⟨⟨hwf.1.1, hwf.1.2⟩, hwf.2⟩
      have hmask : b &&& 127 = b % 128 := and_127_eq_mod b
      have hcond : b &&& 128 = 128 := and_128_eq_of_ge hb.1.1 hb.1.2
      have hacc' : acc + b % 128 * 2 ^ shift < 2 ^ (shift + 7) := by
        have hsplit : (2 : Nat) ^ (shift + 7) = 2 ^ shift * 128 := by
          rw [Nat.pow_add]
        rw [hsplit]
        have h128 : b % 128 < 128 := Nat.mod_lt b (by norm_num)
        nlinarith [Nat.two_pow_pos shift]
      have hstep : read_7bit_int_aux (b :: c :: rest2) shift acc =
          read_7bit_int_aux (c :: rest2) (shift + 7) (acc ||| ((b &&& 127) <<< shift)) := by
        show (if b &&& 128 = 0 then some (acc ||| ((b &&& 127) <<< shift), c :: rest2)
              else read_7bit_int_aux (c :: rest2) (shift + 7) (acc ||| ((b &&& 127) <<< shift))) =
            read_7bit_int_aux (c :: rest2) (shift + 7) (acc ||| ((b &&& 127) <<< shift))
        rw [if_neg (by rw [hcond]; decide)]
      rw [hstep, hmask, lor_shiftLeft_eq_add shift acc (b % 128) hacc]
      rw [ih hb.2 (shift + 7) (acc + b % 128 * 2 ^ shift) hacc']
      have harith : acc + b % 128 * 2 ^ shift + val7 (c :: rest2) * 2 ^ (shift + 7) =
          acc + val7 (b :: c :: rest2) * 2 ^ shift := by
        have hsplit : (2 : Nat) ^ (shift + 7) = 2 ^ shift * 128 := by
          rw [Nat.pow_add]
        rw [hsplit]
        show acc + b % 128 * 2 ^ shift + val7 (c :: rest2) * (2 ^ shift * 128) =
          acc + (b % 128 + 128 * val7 (c :: rest2)) * 2 ^ shift
        ring
      rw [harith]

/-- Auxiliary: a canonical encoding of a positive value denotes at least 1. -/
theorem val7_pos : ∀ (bs : List Nat), canonical_7bit_pos bs = true → 1 ≤ val7 bs := by
  intro bs
  induction bs with
  | nil => intro h; simp [canonical_7bit_pos] at h
  | cons b rest ih =>
    intro h
    cases rest with
    | nil =>
      have hb : 0 < b ∧ b < 128 := by simpa [canonical_7bit_pos] using h
      show 1 ≤ b % 128 + 128 * val7 []
      have hmod : b % 128 = b := Nat.mod_eq_of_lt hb.2
      omega
    | cons c rest2 =>
      have hb : canonical_7bit_pos (c :: rest2) = true := by
        have heq : canonical_7bit_pos (b :: c :: rest2) =
            (decide (128 ≤ b) && decide (b < 256) && canonical_7bit_pos (c :: rest2)) := rfl
        rw [heq] at h
        simp at h
        exact h.2
      have := ih hb
      show 1 ≤ b % 128 + 128 * val7 (c :: rest2)
      omega

/-- Auxiliary: canonical-for-a-positive-value implies well formed. -/
theorem wf7_of_canonical_pos : ∀ (bs : List Nat),
    canonical_7bit_pos bs = true → wf7 bs = true := by
  intro bs
  induction bs with
  | nil => intro h; simp [canonical_7bit_pos] at h
  | cons b rest ih =>
    intro h
    cases rest with
    | nil =>
      have hb : 0 < b ∧ b < 128 := by simpa [canonical_7bit_pos] using h
      simpa [wf7] using hb.2
    | cons c rest2 =>
      have heq : canonical_7bit_pos (b :: c :: rest2) =
          (decide (128 ≤ b) && decide (b < 256) && canonical_7bit_pos (c :: rest2)) := rfl
      rw [heq] at h
      simp at h
      have heq2 : wf7 (b :: c :: rest2) =
          (decide (128 ≤ b) && decide (b < 256) && wf7 (c :: rest2)) := rfl
      rw [heq2]
      simp [h.1.1, h.1.2, ih h.2]

/-- Auxiliary: canonical implies well formed. -/
theorem wf7_of_canonical : ∀ (bs : List Nat),
    canonical_7bit bs = true → wf7 bs = true := by
  intro bs
  cases bs with
  | nil => intro h; simp [canonical_7bit] at h
  | cons b rest =>
    cases rest with
    | nil =>
      intro h
      simpa [wf7, canonical_7bit] using h
    | cons c rest2 =>
      intro h
      exact wf7_of_canonical_pos (b :: c :: rest2) h

/-- Auxiliary: the encoder reproduces any canonical encoding of a positive
value from its denoted value. -/
theorem encode_val_pos : ∀ (bs : List Nat), canonical_7bit_pos bs = true →
    encode_7bit_int (val7 bs) = bs := by
  intro bs
  induction bs with
  | nil => intro h; simp [canonical_7bit_pos] at h
  | cons b rest ih =>
    intro h
    cases rest with
    | nil =>
      have hb : 0 < b ∧ b < 128 := by simpa [canonical_7bit_pos] using h
      have hv : val7 [b] = b := by
        show b % 128 + 128 * val7 [] = b
        simp [val7]
        omega
      rw [hv, encode_7bit_int, dif_neg (by omega)]
      rw [and_127_eq_mod]
      have : b % 128 = b := Nat.mod_eq_of_lt hb.2
      rw [this]
    | cons c rest2 =>
      have heq : canonical_7bit_pos (b :: c :: rest2) =
          (decide (128 ≤ b) && decide (b < 256) && canonical_7bit_pos (c :: rest2)) := rfl
      rw [heq] at h
      simp at h
      have htail := val7_pos (c :: rest2) h.2
      have hv : val7 (b :: c :: rest2) = b % 128 + 128 * val7 (c :: rest2) := rfl
      have hge : 128 ≤ val7 (b :: c :: rest2) := by
        rw [hv]
        omega
      rw [encode_7bit_int, dif_pos hge, encode_head_byte]
      have hmod : val7 (b :: c :: rest2) % 128 = b % 128 := by
        rw [hv]
        omega
      have hhead : val7 (b :: c :: rest2) % 128 + 128 = b := by
        rw [hmod]
        omega
      have hshift : val7 (b :: c :: rest2) >>> 7 = val7 (c :: rest2) := by
        rw [Nat.shiftRight_eq_div_pow]
        show val7 (b :: c :: rest2) / 128 = val7 (c :: rest2)
        rw [hv]
        omega
      rw [hhead, hshift, ih h.2]

/-- Auxiliary: the encoder reproduces any canonical encoding from its
denoted value. -/
theorem encode_val_canonical : ∀ (bs : List Nat), canonical_7bit bs = true →
    encode_7bit_int (val7 bs) = bs := by
  intro bs
  cases bs with
  | nil => intro h; simp [canonical_7bit] at h
  | cons b rest =>
    cases rest with
    | nil =>
      intro h
      have hb : b < 128 := by simpa [canonical_7bit] using h
      have hv : val7 [b] = b := by
        show b % 128 + 128 * val7 [] = b
        simp [val7]
        omega
      rw [hv, encode_7bit_int, dif_neg (by omega)]
      rw [and_127_eq_mod]
      have : b % 128 = b := Nat.mod_eq_of_lt hb
      rw [this]
    | cons c rest2 =>
      intro h
      exact encode_val_pos (b :: c :: rest2) h

/-- C9, counterexample: the byte sequence `[0x80, 0x00]` is accepted by the
decoder (each byte contributes its 7 low bits, the high bit is the
continuation flag, least-significant group first) and denotes the in-range
value 0, but re-encoding the decoded value 0 yields the single byte `[0x00]`,
not `[0x80, 0x00]` — so `encode(decode(b)) = b` fails on decoder-accepted
sequences carrying a redundant trailing zero group. -/
theorem seven_bit_non_canonical :
    read_7bit_int [128, 0] = some (0, []) ∧
    encode_7bit_int 0 = [0] ∧
    ([0] : List Nat) ≠ [128, 0] := by
  refine ⟨by decide, ?_, by decide⟩
  rw [encode_7bit_int, dif_neg (by omega)]
  norm_num

/-- C9 as amended: decoding the encoder's output returns every `n ≥ 0`
unchanged (the decoder has no width limit, so this covers the whole unbounded
Python integer domain); and re-encoding the decoded value reproduces `b`
exactly for the canonical byte sequences — those whose bytes are byte values,
whose continuation bits match their positions, and whose final 7-bit group is
non-zero unless the sequence is a single byte. -/
theorem seven_bit_round_trip :
    (∀ n : Nat, read_7bit_int (encode_7bit_int n) = some (n, [])) ∧
    (∀ bs : List Nat, canonical_7bit bs = true →
      ∃ n, read_7bit_int bs = some (n, []) ∧ encode_7bit_int n = bs) := by
  constructor
  · intro n
    have h := read_aux_encode n 0 0 [] (by norm_num)
    rw [List.append_nil] at h
    simpa [read_7bit_int] using h
  · intro bs h
    refine ⟨val7 bs, ?_, encode_val_canonical bs h⟩
    have h2 := read_aux_wf bs (wf7_of_canonical bs h) 0 0 (by norm_num)
    simpa [read_7bit_int] using h2

/-- Witness for C9 at the canonical two-byte sequence `[0x81, 0x01]`
(denoting 129). -/
theorem seven_bit_round_trip_witness :
    canonical_7bit [129, 1] = true ∧
    ∃ n, read_7bit_int [129, 1] = some (n, []) ∧ encode_7bit_int n = [129, 1] :=
  ⟨by decide, seven_bit_round_trip.2 [129, 1] (by decide)⟩

end Mirbot
